import Mathlib

/-!
Shallow embedding of the `websrv` crate (src/lib.rs): the request parser,
route dispatch, response rendering, the connection handler, and the thread
pool's structural lifecycle.  Rust strings are modelled as Lean `String`
(the parsing internals work on `List Char`, matching `str` iteration);
Rust panics (`unwrap` on `None`, `assert!`) are modelled as `Except.error ()`.
-/

namespace Websrv

/-- Unicode code points with the White_Space property, as used by Rust's
`char::is_whitespace` (and hence `str::split_whitespace`). -/
def isRustWhitespace (c : Char) : Bool :=
  let n := c.toNat
  (0x9 ≤ n && n ≤ 0xD) || n == 0x20 || n == 0x85 || n == 0xA0 || n == 0x1680 ||
  (0x2000 ≤ n && n ≤ 0x200A) || n == 0x2028 || n == 0x2029 || n == 0x202F ||
  n == 0x205F || n == 0x3000

/-- Prepend a character to the first piece of a split result. -/
def consHead (c : Char) : List (List Char) → List (List Char)
  | r :: rs => (c :: r) :: rs
  | [] => [[c]]

/-- Split a character list at every newline character (the pieces do not
contain the separators); like Rust's `str::split('\n')`. -/
def splitNl : List Char → List (List Char)
  | [] => [[]]
  | c :: rest => if c = '\n' then [] :: splitNl rest else consHead c (splitNl rest)

/-- Remove one trailing carriage return, if present. -/
def stripCr (l : List Char) : List Char :=
  match l.getLast? with
  | some c => if c = '\r' then l.dropLast else l
  | none => l

/-- Post-process the newline split the way Rust's `str::lines` does: every
newline-terminated piece loses one trailing carriage return; a final empty
piece (the string ended with a newline, or was empty) is dropped; a final
non-empty piece is kept verbatim. -/
def rustLinesAux : List (List Char) → List (List Char)
  | [] => []
  | l :: rest =>
    match rest with
    | [] => if l = [] then [] else [l]
    | _ :: _ => stripCr l :: rustLinesAux rest

/-- Rust's `str::lines` on a character list. -/
def rustLines (l : List Char) : List (List Char) :=
  rustLinesAux (splitNl l)

/-- Split at every whitespace character (pieces may be empty). -/
def splitWsRaw : List Char → List (List Char)
  | [] => [[]]
  | c :: rest =>
    if isRustWhitespace c then [] :: splitWsRaw rest else consHead c (splitWsRaw rest)

/-- Rust's `str::split_whitespace`: whitespace-separated tokens, with empty
pieces discarded. -/
def splitWs (l : List Char) : List (List Char) :=
  (splitWsRaw l).filter (fun p => !p.isEmpty)

/-- Rust's `str::split(": ")`: split at every non-overlapping, leftmost
occurrence of the two-character separator colon-space. -/
def splitColonSpace : List Char → List (List Char)
  | [] => [[]]
  | [c] => [[c]]
  | c :: d :: rest =>
    if c = ':' ∧ d = ' ' then [] :: splitColonSpace rest
    else consHead c (splitColonSpace (d :: rest))

/-- Whether the two-character separator colon-space occurs in the list. -/
def containsColonSpace : List Char → Bool
  | [] => false
  | [_] => false
  | c :: d :: rest =>
    if c = ':' ∧ d = ' ' then true else containsColonSpace (d :: rest)

/-- The characters before the first CRLF pair (the status line of a rendered
response, without its terminator). -/
def takeUntilCRLF : List Char → List Char
  | [] => []
  | c :: rest =>
    if c = '\r' ∧ rest.head? = some '\n' then [] else c :: takeUntilCRLF rest

/-- Number of CRLF pairs occurring in the list. -/
def countCRLF : List Char → Nat
  | [] => 0
  | c :: rest =>
    (if c = '\r' ∧ rest.head? = some '\n' then 1 else 0) + countCRLF rest

/-- Rust's `String::len`: the UTF-8 byte length. -/
def utf8Len (s : String) : Nat :=
  s.data.foldl (fun n c => n + c.utf8Size) 0

/-- The fixed verb enumeration (src/lib.rs, `enum Method`). -/
inductive Method where
  | GET
  | POST
  | PUT
  | PATCH
  | DELETE
deriving DecidableEq

/-- `Method::from_str` (src/lib.rs): match the token against the five verb
literals; anything else (including an absent token) is `none`. -/
def Method.fromStr : Option String → Option Method
  | some s =>
    if s = "GET" then some .GET
    else if s = "POST" then some .POST
    else if s = "PUT" then some .PUT
    else if s = "PATCH" then some .PATCH
    else if s = "DELETE" then some .DELETE
    else none
  | none => none

/-- Modelled from the spec: the canonical text rendering of each verb (the
source derives the rendering via its `Serialize` derive, whose generated code
is not under src/; the spec calls it "rendering a Request's Method to text"
with the variant names as the canonical texts). -/
def Method.render : Method → String
  | .GET => "GET"
  | .POST => "POST"
  | .PUT => "PUT"
  | .PATCH => "PATCH"
  | .DELETE => "DELETE"

/-- `struct Header` (src/lib.rs): a parsed header line's key and value. -/
structure Header where
  key : String
  value : String
deriving DecidableEq

/-- `struct Request` (src/lib.rs): the parsed request handed to handlers. -/
structure Request where
  http_ver : String
  method : Method
  uri : String
  headers : List Header
  body : String
deriving DecidableEq

/-- One header line (src/lib.rs, `Request::from_str`, the `parsing_headers`
branch): `line.split(": ")` with `kv.next().unwrap()` taken twice — the first
piece always exists, the second `unwrap` panics when the separator is absent;
any pieces after the second are dropped. -/
def parseHeaderLine (line : List Char) : Except Unit Header :=
  match splitColonSpace line with
  | k :: v :: _ => .ok ⟨String.mk k, String.mk v⟩
  | _ => .error ()

/-- The `for line in lines` loop of `Request::from_str` (src/lib.rs): an
empty line flips `parsing_headers` off and is skipped; while the flag is on,
each line is parsed as a header (appended in order); afterwards each line is
appended to the body with no separator reinserted. -/
def parseLinesLoop :
    List (List Char) → Bool → List Header → List Char →
    Except Unit (List Header × List Char)
  | [], _, hs, b => .ok (hs, b)
  | l :: rest, ph, hs, b =>
    if l.isEmpty then parseLinesLoop rest false hs b
    else if ph then
      match parseHeaderLine l with
      | .ok h => parseLinesLoop rest ph (hs ++ [h]) b
      | .error e => .error e
    else parseLinesLoop rest ph hs (b ++ l)

/-- `Request::from_str` (src/lib.rs): split the buffer into lines
(`lines.next().unwrap()` panics when the buffer has no lines, i.e. is empty);
split the first line on whitespace; an unrecognized or absent method token
returns `None`; the `uri` and `http_ver` tokens are `unwrap`ped (panic when
fewer than three tokens are present); the remaining lines are folded by
`parseLinesLoop`. `Except.error ()` models a panic. -/
def Request.fromStr (body : String) : Except Unit (Option Request) :=
  match rustLines body.data with
  | [] => .error ()
  | firstline :: rest =>
    let toks := splitWs firstline
    match Method.fromStr (toks[0]?.map String.mk) with
    | none => .ok none
    | some method =>
      match toks[1]?, toks[2]? with
      | some uri, some http_ver =>
        match parseLinesLoop rest true [] [] with
        | .ok (headers, b) =>
          .ok (some ⟨String.mk http_ver, method, String.mk uri, headers, String.mk b⟩)
        | .error e => .error e
      | _, _ => .error ()

/-- `enum StatusCode` (src/lib.rs). -/
inductive StatusCode where
  | Ok
  | Created
  | Accepted
  | NoContent
  | BadRequest
  | Unauthorized
  | Forbidden
  | NotFound
deriving DecidableEq

/-- `StatusCode::text` (src/lib.rs): the canonical status-line text. -/
def StatusCode.text : StatusCode → String
  | .Ok => "200 OK"
  | .Created => "201 Created"
  | .Accepted => "202 Accepted"
  | .NoContent => "204 No Content"
  | .BadRequest => "400 Bad Request"
  | .Unauthorized => "401 Unauthorized"
  | .Forbidden => "403 Forbidden"
  | .NotFound => "404 Not Found"

/-- `struct Route` (src/lib.rs): path, method and handler function. -/
structure Route where
  path : String
  method : Method
  func : Request → StatusCode × String

/-- The match condition of the dispatch loop in `WebSrv::handle_connection`
(src/lib.rs): `route.path == request.uri && request.method == route.method`. -/
def routeMatches (route : Route) (request : Request) : Bool :=
  decide (route.path = request.uri ∧ request.method = route.method)

/-- The `for route in routes` loop of `WebSrv::handle_connection`
(src/lib.rs): the first route whose path and method both match, if any. -/
def findRoute : List Route → Request → Option Route
  | [], _ => none
  | r :: rs, request =>
    if routeMatches r request then some r else findRoute rs request

/-- The response-rendering block of `WebSrv::handle_connection` (src/lib.rs,
the matched-route arm): a status line with the protocol hardcoded as
HTTP/1.1, then — only when the body is non-empty — a Content-Length header,
a blank line, and the body. -/
def renderResponse (status_code : StatusCode) (response : String) : String :=
  if utf8Len response > 0 then
    "HTTP/1.1 " ++ status_code.text ++ "\r\n" ++ "Content-Length: " ++
      Nat.repr (utf8Len response) ++ "\r\n\r\n" ++ response
  else "HTTP/1.1 " ++ status_code.text ++ "\r\n"

/-- The not-found arm of `WebSrv::handle_connection` (src/lib.rs): the
content of templates/404.html (an external collaborator, passed here as a
parameter) framed with an unconditional Content-Length and blank line. -/
def notFoundResponse (content : String) : String :=
  "HTTP/1.1 404 Not Found\r\nContent-Length: " ++ Nat.repr (utf8Len content) ++
    "\r\n\r\n" ++ content

/-- The NUL character filling the unread tail of the read buffer. -/
def NUL : Char := Char.ofNat 0

/-- The buffer `WebSrv::handle_connection` (src/lib.rs) hands to the parser:
`let mut buffer = [0; 4096]` is zero-initialized, a single `stream.read`
fills a prefix of it with the received bytes, and the whole buffer is decoded
(`String::from_utf8_lossy(&buffer[..])`) — the received text followed by NUL
characters up to 4096 bytes. -/
def mkBuffer (received : String) : String :=
  received ++ String.mk (List.replicate (4096 - utf8Len received) NUL)

/-- Dispatch plus rendering for one parsed request: the matched route's
handler result rendered, or the not-found response. -/
def handleRequest (routes : List Route) (request : Request)
    (notFoundContent : String) : String :=
  match findRoute routes request with
  | some route => renderResponse (route.func request).1 (route.func request).2
  | none => notFoundResponse notFoundContent

/-- `WebSrv::handle_connection` (src/lib.rs): build the 4096-byte buffer from
the received bytes, parse it, return silently (no bytes written, `.ok none`)
when the parser returns no request, propagate parser panics (`.error`), and
otherwise write exactly one rendered response (`.ok (some bytes)`). -/
def handleConnection (received : String) (routes : List Route)
    (notFoundContent : String) : Except Unit (Option String) :=
  match Request.fromStr (mkBuffer received) with
  | .error e => .error e
  | .ok none => .ok none
  | .ok (some request) => .ok (some (handleRequest routes request notFoundContent))

/-- The status line of a rendered response: the characters before the first
CRLF. -/
def statusLineOf (s : String) : String :=
  String.mk (takeUntilCRLF s.data)

/-- `struct Worker` (src/lib.rs): a worker id and its thread handle
(`Option<JoinHandle<()>>`, modelled as `Option Unit`: `some ()` is a live,
joinable thread; `drop` takes it before joining). -/
structure Worker where
  id : Nat
  thread : Option Unit
deriving DecidableEq

/-- `struct ThreadPool` (src/lib.rs): the vector of workers (the sender half
of the channel carries no further lifecycle state in this model). -/
structure ThreadPool where
  workers : List Worker
deriving DecidableEq

/-- `ThreadPool::new` (src/lib.rs): `assert!(size > 0)` panics on zero
(modelled as `.error ()`); otherwise workers 0..size-1 are spawned, each with
a live thread handle. -/
def ThreadPool.new (size : Nat) : Except Unit ThreadPool :=
  if 0 < size then .ok ⟨(List.range size).map (fun i => ⟨i, some ()⟩)⟩
  else .error ()

/-- One observable step of `impl Drop for ThreadPool` (src/lib.rs): sending
one `Message::Terminate` into the shared queue, or joining one worker's
thread. -/
inductive ShutdownStep where
  | sendTerminate
  | joinWorker (id : Nat)
deriving DecidableEq

/-- `impl Drop for ThreadPool` (src/lib.rs) as its ordered action trace: the
first loop sends one Terminate per worker, the second loop joins every
worker's thread (taken out of its `Option`). -/
def ThreadPool.dropTrace (p : ThreadPool) : List ShutdownStep :=
  p.workers.map (fun _ => ShutdownStep.sendTerminate) ++
    p.workers.map (fun w => ShutdownStep.joinWorker w.id)

/-- `WebSrv::run` (src/lib.rs): after binding the listener, the pool is
constructed — its zero-size assertion fires before the accept loop runs — and
only then are accepted connections (abstracted here as a list of connection
ids) handed to the pool. -/
def WebSrv.run (workers : Nat) (conns : List Nat) : Except Unit (List Nat) :=
  match ThreadPool.new workers with
  | .error e => .error e
  | .ok _ => .ok conns

/-- Merge two split results across a concatenation seam: the last piece of
the first split is glued to the first piece of the second. -/
def joinSplit : List (List Char) → List (List Char) → List (List Char)
  | [], ys => ys
  | x :: xs, ys =>
    match xs with
    | [] =>
      match ys with
      | y :: ys2 => (x ++ y) :: ys2
      | [] => [x]
    | _ :: _ => x :: joinSplit xs ys

/-- The malformed-input classes named by the spec: an empty buffer, a request
line with fewer than three whitespace-separated tokens, or a header line
(before the first empty line) lacking the colon-space separator. -/
def Malformed (s : String) : Prop :=
  s = "" ∨
  (∃ fl rest, rustLines s.data = fl :: rest ∧ (splitWs fl).length < 3) ∨
  (∃ fl rest, rustLines s.data = fl :: rest ∧
    ∃ l ∈ rest.takeWhile (fun x => !x.isEmpty), containsColonSpace l = false)

/-- Projection used to state counterexamples without binders: the header
(key, value) pairs of a successfully parsed request. -/
def headerPairs : Except Unit (Option Request) → Option (List (String × String))
  | .ok (some r) => some (r.headers.map (fun h => (h.key, h.value)))
  | _ => none

/-- Projection used to state counterexamples without binders: the protocol
version of a successfully parsed request. -/
def versionOf : Except Unit (Option Request) → Option String
  | .ok (some r) => some r.http_ver
  | _ => none

/-- A one-route table for concrete witnesses: GET /ping answered by a
handler returning 200 OK with body "pong". -/
def pingRoutes : List Route :=
  [⟨"/ping", Method.GET, fun _ => (StatusCode.Ok, "pong")⟩]

/-- The request that parsing the padded buffer of
"GET /ping HTTP/1.1\r\n\r\n" yields: the NUL tail of the read buffer lands in
the body. -/
def pingReq : Request :=
  ⟨"HTTP/1.1", Method.GET, "/ping", [], String.mk (List.replicate 4074 NUL)⟩

end Websrv

deriving instance DecidableEq for Except

namespace Websrv

theorem data_append (a b : String) : (a ++ b).data = a.data ++ b.data := rfl

theorem mk_data (s : String) : String.mk s.data = s := rfl

theorem utf8Len_init (l : List Char) (i : Nat) :
    l.foldl (fun n c => n + c.utf8Size) i = i + l.foldl (fun n c => n + c.utf8Size) 0 := by
  induction l generalizing i with
  | nil => simp
  | cons c rest ih =>
    simp only [List.foldl_cons]
    rw [ih (i + c.utf8Size), ih (0 + c.utf8Size)]
    omega

theorem utf8Len_append (a b : String) : utf8Len (a ++ b) = utf8Len a + utf8Len b := by
  simp only [utf8Len, data_append, List.foldl_append]
  rw [utf8Len_init b.data]

theorem utf8Len_mk_replicate (k : Nat) :
    utf8Len (String.mk (List.replicate k NUL)) = k := by
  induction k with
  | zero => rfl
  | succ n ih =>
    show (List.replicate (n + 1) NUL).foldl (fun n c => n + c.utf8Size) 0 = n + 1
    rw [List.replicate_succ, List.foldl_cons, utf8Len_init]
    have ih2 : (List.replicate n NUL).foldl (fun n c => n + c.utf8Size) 0 = n := ih
    have hsz : NUL.utf8Size = 1 := rfl
    omega

theorem utf8Len_mkBuffer (received : String) (h : utf8Len received ≤ 4096) :
    utf8Len (mkBuffer received) = 4096 := by
  rw [mkBuffer, utf8Len_append, utf8Len_mk_replicate]
  omega

theorem splitNl_ne_nil (l : List Char) : splitNl l ≠ [] := by
  induction l with
  | nil => simp [splitNl]
  | cons c rest ih =>
    rw [splitNl]
    split
    · simp
    · match h : splitNl rest with
      | [] => exact absurd h ih
      | r :: rs => simp [consHead]

theorem splitNl_no_nl (l : List Char) (h : ∀ c ∈ l, ¬ c = '\n') : splitNl l = [l] := by
  induction l with
  | nil => rfl
  | cons c rest ih =>
    rw [splitNl, if_neg (h c (by simp))]
    rw [ih (fun x hx => h x (by simp [hx]))]
    rfl

theorem joinSplit_consHead (c : Char) (xs ys : List (List Char)) (hys : ys ≠ []) :
    joinSplit (consHead c xs) ys = consHead c (joinSplit xs ys) := by
  match xs, ys with
  | [], y :: ys2 => simp [consHead, joinSplit]
  | [x], y :: ys2 => simp [consHead, joinSplit]
  | x :: x2 :: xs2, y :: ys2 => simp [consHead, joinSplit]

theorem joinSplit_cons (x : List Char) (xs ys : List (List Char)) (h : xs ≠ []) :
    joinSplit (x :: xs) ys = x :: joinSplit xs ys := by
  match xs with
  | [] => exact absurd rfl h
  | a :: as => rfl

theorem splitNl_append (a b : List Char) :
    splitNl (a ++ b) = joinSplit (splitNl a) (splitNl b) := by
  induction a with
  | nil =>
    match h : splitNl b with
    | [] => exact absurd h (splitNl_ne_nil b)
    | y :: ys => simp [splitNl, joinSplit, h]
  | cons c rest ih =>
    rw [List.cons_append]
    by_cases hc : c = '\n'
    · subst hc
      rw [show splitNl ('\n' :: (rest ++ b)) = [] :: splitNl (rest ++ b) from by
            rw [splitNl, if_pos rfl],
          show splitNl ('\n' :: rest) = [] :: splitNl rest from by
            rw [splitNl, if_pos rfl],
          ih, joinSplit_cons _ _ _ (splitNl_ne_nil rest)]
    · rw [show splitNl (c :: (rest ++ b)) = consHead c (splitNl (rest ++ b)) from by
            rw [splitNl, if_neg hc],
          show splitNl (c :: rest) = consHead c (splitNl rest) from by
            rw [splitNl, if_neg hc],
          ih, joinSplit_consHead _ _ _ (splitNl_ne_nil b)]

theorem splitWsRaw_no_ws (l : List Char) (h : ∀ c ∈ l, isRustWhitespace c = false) :
    splitWsRaw l = [l] := by
  induction l with
  | nil => rfl
  | cons c rest ih =>
    rw [splitWsRaw, if_neg (by simp [h c (by simp)])]
    rw [ih (fun x hx => h x (by simp [hx]))]
    rfl

theorem splitWs_no_ws (l : List Char) (hne : l ≠ [])
    (h : ∀ c ∈ l, isRustWhitespace c = false) : splitWs l = [l] := by
  rw [splitWs, splitWsRaw_no_ws l h]
  match l, hne with
  | c :: cs, _ => rfl

theorem NUL_not_ws : isRustWhitespace NUL = false := rfl

theorem NUL_not_nl : ¬ NUL = '\n' := by decide

theorem replicate_NUL_ne_nil (k : Nat) (hk : 0 < k) : List.replicate k NUL ≠ [] := by
  cases k with
  | zero => omega
  | succ n => simp [List.replicate_succ]

theorem rustLinesAux_getLast (ps : List (List Char)) (t : List Char)
    (hlast : ps.getLast? = some t) (ht : t ≠ []) :
    (rustLinesAux ps).getLast? = some t := by
  induction ps with
  | nil => simp at hlast
  | cons l rest ih =>
    match rest with
    | [] =>
      simp only [List.getLast?_singleton] at hlast
      rw [rustLinesAux]
      simp only [Option.some.injEq] at hlast
      subst hlast
      rw [if_neg ht]
      rfl
    | r :: rs =>
      rw [List.getLast?_cons_cons] at hlast
      rw [rustLinesAux]
      have h2 := ih hlast
      rw [List.getLast?_cons]
      simp only [h2]
      have : rustLinesAux (r :: rs) ≠ [] := by
        intro hnil
        rw [hnil] at h2
        simp at h2
      match h3 : rustLinesAux (r :: rs) with
      | [] => exact absurd h3 this
      | _ :: _ => simp [h3] at h2 ⊢

theorem joinSplit_getLast_single (xs : List (List Char)) (b : List Char) (hxs : xs ≠ []) :
    ∃ x, (joinSplit xs [b]).getLast? = some (x ++ b) := by
  induction xs with
  | nil => exact absurd rfl hxs
  | cons x xs2 ih =>
    match xs2 with
    | [] => exact ⟨x, by simp [joinSplit]⟩
    | y :: ys =>
      obtain ⟨x2, hx2⟩ := ih (by simp)
      refine ⟨x2, ?_⟩
      rw [joinSplit_cons _ _ _ (by simp)]
      rw [List.getLast?_cons]
      simp only [hx2]
      match h3 : joinSplit (y :: ys) [b] with
      | [] => rw [h3] at hx2; simp at hx2
      | _ :: _ => simp [h3] at hx2 ⊢

theorem data_mk (l : List Char) : (String.mk l).data = l := rfl

theorem stripCr_concat (a : List Char) : stripCr (a ++ ['\r']) = a := by
  rw [stripCr, List.getLast?_concat]
  simp [List.dropLast_concat]

theorem isEmpty_replicate_NUL (k : Nat) (hk : 0 < k) :
    (List.replicate k NUL).isEmpty = false := by
  cases k with
  | zero => omega
  | succ n => rfl

theorem rustLines_req_nuls (a : List Char) (k : Nat) (hk : 0 < k)
    (hnl : ∀ c ∈ a, ¬ c = '\n') :
    rustLines (a ++ ('\r' :: '\n' :: '\r' :: '\n' :: List.replicate k NUL)) =
      [a, [], List.replicate k NUL] := by
  have hrep : splitNl (List.replicate k NUL) = [List.replicate k NUL] :=
    splitNl_no_nl _ (fun c hc => by
      rw [List.eq_of_mem_replicate hc]; exact NUL_not_nl)
  have hb : splitNl ('\r' :: '\n' :: '\r' :: '\n' :: List.replicate k NUL) =
      [['\r'], ['\r'], List.replicate k NUL] := by
    rw [splitNl, if_neg (by decide), splitNl, if_pos rfl,
        splitNl, if_neg (by decide), splitNl, if_pos rfl, hrep]
    rfl
  rw [rustLines, splitNl_append, splitNl_no_nl a hnl, hb]
  rw [show joinSplit [a] [['\r'], ['\r'], List.replicate k NUL] =
        [a ++ ['\r'], ['\r'], List.replicate k NUL] from rfl]
  rw [show rustLinesAux [a ++ ['\r'], ['\r'], List.replicate k NUL] =
        stripCr (a ++ ['\r']) :: stripCr ['\r'] :: rustLinesAux [List.replicate k NUL]
      from rfl]
  rw [stripCr_concat,
      show stripCr ['\r'] = [] from rfl,
      show rustLinesAux [List.replicate k NUL] =
        (if List.replicate k NUL = [] then [] else [List.replicate k NUL]) from rfl,
      if_neg (replicate_NUL_ne_nil k hk)]

theorem parseLinesLoop_blank_nuls (k : Nat) (hk : 0 < k) :
    parseLinesLoop [[], List.replicate k NUL] true [] [] =
      Except.ok ([], List.replicate k NUL) := by
  match k, hk with
  | n + 1, _ => rfl

theorem fromStr_three_tok (a t0 t1 t2 : List Char) (k : Nat) (m : Method) (hk : 0 < k)
    (hnl : ∀ c ∈ a, ¬ c = '\n')
    (htoks : splitWs a = [t0, t1, t2])
    (hm : Method.fromStr (some (String.mk t0)) = some m) :
    Request.fromStr (String.mk (a ++ ('\r' :: '\n' :: '\r' :: '\n' :: List.replicate k NUL))) =
      .ok (some ⟨String.mk t2, m, String.mk t1, [], String.mk (List.replicate k NUL)⟩) := by
  rw [Request.fromStr, data_mk, rustLines_req_nuls a k hk hnl]
  simp only [htoks, List.getElem?_cons_zero, List.getElem?_cons_succ]
  rw [show Option.map String.mk (some t0) = some (String.mk t0) from rfl, hm,
      parseLinesLoop_blank_nuls k hk]

theorem str_append_assoc (a b c : String) : (a ++ b) ++ c = a ++ (b ++ c) :=
  congrArg String.mk (List.append_assoc a.data b.data c.data)

theorem takeUntilCRLF_append (a rest : List Char) (ha : ∀ c ∈ a, ¬ c = '\r') :
    takeUntilCRLF (a ++ '\r' :: '\n' :: rest) = a := by
  induction a with
  | nil => rw [List.nil_append, takeUntilCRLF, if_pos ⟨rfl, rfl⟩]
  | cons c a2 ih =>
    rw [List.cons_append, takeUntilCRLF, if_neg (fun h => ha c (by simp) h.1),
        ih (fun x hx => ha x (by simp [hx]))]

theorem statusLineOf_eq (s pref rest : String)
    (hs : s.data = pref.data ++ ('\r' :: '\n' :: rest.data))
    (h : ∀ c ∈ pref.data, ¬ c = '\r') : statusLineOf s = pref := by
  rw [statusLineOf, hs, takeUntilCRLF_append _ _ h, mk_data]

theorem statusText_noCr (st : StatusCode) :
    ∀ c ∈ ("HTTP/1.1 " ++ st.text).data, ¬ c = '\r' := by
  cases st <;> decide

theorem statusLineOf_render (st : StatusCode) (b : String) :
    statusLineOf (renderResponse st b) = "HTTP/1.1 " ++ st.text := by
  have hnl : ("\r\n").data = ['\r', '\n'] := rfl
  have hnl2 : ("\r\n\r\n").data = ['\r', '\n', '\r', '\n'] := rfl
  rw [renderResponse]
  split
  · refine statusLineOf_eq _ _ ("Content-Length: " ++ Nat.repr (utf8Len b) ++ "\r\n" ++ ("\r\n" ++ b)) ?_ (statusText_noCr st)
    simp [data_append, hnl, hnl2, List.append_assoc]
  · refine statusLineOf_eq _ _ "" ?_ (statusText_noCr st)
    simp [data_append, hnl, List.append_assoc]

theorem statusLineOf_notFound (content : String) :
    statusLineOf (notFoundResponse content) = "HTTP/1.1 404 Not Found" := by
  rw [notFoundResponse]
  refine statusLineOf_eq _ _ ("Content-Length: " ++ Nat.repr (utf8Len content) ++ "\r\n" ++ ("\r\n" ++ content)) ?_ (by decide)
  have hpre : ("HTTP/1.1 404 Not Found\r\nContent-Length: ").data =
      ("HTTP/1.1 404 Not Found").data ++ ('\r' :: '\n' :: ("Content-Length: ").data) := rfl
  have hnl : ("\r\n").data = ['\r', '\n'] := rfl
  simp [data_append, hpre, hnl, List.append_assoc]

theorem findRoute_none (routes : List Route) (req : Request)
    (h : ∀ r ∈ routes, routeMatches r req = false) :
    findRoute routes req = none := by
  induction routes with
  | nil => rfl
  | cons r rs ih =>
    rw [findRoute, if_neg (by simp [h r (by simp)]),
        ih (fun x hx => h x (by simp [hx]))]

theorem findRoute_first (routes : List Route) (req : Request)
    (hex : ∃ r ∈ routes, routeMatches r req = true) :
    ∃ i, ∃ hi : i < routes.length,
      routeMatches routes[i] req = true ∧
      (∀ r ∈ routes.take i, routeMatches r req = false) ∧
      findRoute routes req = some routes[i] := by
  induction routes with
  | nil => simp at hex
  | cons r rs ih =>
    by_cases hm : routeMatches r req = true
    · exact ⟨0, by simp, by simpa using hm, by simp, by rw [findRoute, if_pos hm]; rfl⟩
    · have hm2 : routeMatches r req = false := by
        cases h : routeMatches r req
        · rfl
        · exact absurd h hm
      have hex2 : ∃ x ∈ rs, routeMatches x req = true := by
        obtain ⟨x, hx, hxm⟩ := hex
        rcases List.mem_cons.mp hx with h1 | h2
        · subst h1; exact absurd hxm hm
        · exact ⟨x, h2, hxm⟩
      obtain ⟨i, hi, h1, h2, h3⟩ := ih hex2
      refine ⟨i + 1, by simpa using hi, ?_, ?_, ?_⟩
      · simpa using h1
      · intro x hx
        rw [List.take_succ_cons] at hx
        rcases List.mem_cons.mp hx with h4 | h5
        · subst h4; exact hm2
        · exact h2 x h5
      · rw [findRoute, if_neg (by simp [hm2]), h3]
        simp

theorem splitColonSpace_no_sep (l : List Char) (h : containsColonSpace l = false) :
    splitColonSpace l = [l] := by
  match l with
  | [] => rfl
  | [c] => rfl
  | c :: d :: rest =>
    rw [containsColonSpace] at h
    split at h
    · exact absurd h (by simp)
    · rename_i hcond
      rw [splitColonSpace, if_neg hcond, splitColonSpace_no_sep (d :: rest) h]
      rfl

theorem parseHeaderLine_no_sep (l : List Char) (h : containsColonSpace l = false) :
    parseHeaderLine l = .error () := by
  rw [parseHeaderLine, splitColonSpace_no_sep l h]

theorem parseHeaderLine_sep (l k v : List Char) (rest : List (List Char))
    (h : splitColonSpace l = k :: v :: rest) :
    parseHeaderLine l = .ok ⟨String.mk k, String.mk v⟩ := by
  rw [parseHeaderLine, h]

theorem parseLinesLoop_badHeader (ls : List (List Char)) (hs : List Header)
    (b : List Char)
    (hbad : ∃ l ∈ ls.takeWhile (fun x => !x.isEmpty), containsColonSpace l = false) :
    parseLinesLoop ls true hs b = .error () := by
  induction ls generalizing hs b with
  | nil => simp at hbad
  | cons l rest ih =>
    obtain ⟨x, hx, hxc⟩ := hbad
    match hl : l with
    | [] =>
      rw [List.takeWhile_cons] at hx
      simp at hx
    | c :: cs =>
      rw [List.takeWhile_cons] at hx
      rw [if_pos (by rfl)] at hx
      rw [parseLinesLoop, if_neg (by simp), if_pos rfl]
      rcases List.mem_cons.mp hx with hx1 | hx2
      · subst hx1
        rw [parseHeaderLine_no_sep _ hxc]
      · cases hph : parseHeaderLine (c :: cs) with
        | ok hres => exact ih (hs ++ [hres]) b ⟨x, hx2, hxc⟩
        | error e => rfl

theorem parseLinesLoop_body_suffix (ls : List (List Char)) (ph : Bool)
    (hs hs2 : List Header) (b b2 : List Char) (t : List Char)
    (hrun : parseLinesLoop ls ph hs b = .ok (hs2, b2))
    (hlast : ls.getLast? = some t) (ht : ¬ t = [])
    (hbl : [] ∈ ls ∨ ph = false) :
    ∃ u, b2 = u ++ t := by
  induction ls generalizing ph hs b with
  | nil => simp at hlast
  | cons l rest ih =>
    match rest with
    | [] =>
      simp only [List.getLast?_singleton, Option.some.injEq] at hlast
      subst hlast
      obtain ⟨c, cs, rfl⟩ : ∃ c cs, l = c :: cs := by
        cases l with
        | nil => exact absurd rfl ht
        | cons c cs => exact ⟨c, cs, rfl⟩
      have hph : ph = false := by
        rcases hbl with h | h
        · simp at h
        · exact h
      subst hph
      rw [parseLinesLoop, if_neg (by simp), if_neg Bool.false_ne_true,
          parseLinesLoop] at hrun
      simp only [Except.ok.injEq, Prod.mk.injEq] at hrun
      exact ⟨b, hrun.2.symm⟩
    | r :: rs =>
      rw [List.getLast?_cons_cons] at hlast
      rw [parseLinesLoop] at hrun
      by_cases hl : l.isEmpty
      · rw [if_pos hl] at hrun
        exact ih false hs b hrun hlast (Or.inr rfl)
      · rw [if_neg hl] at hrun
        cases ph with
        | false =>
          rw [if_neg Bool.false_ne_true] at hrun
          exact ih false hs (b ++ l) hrun hlast (Or.inr rfl)
        | true =>
          rw [if_pos rfl] at hrun
          have hmem : [] ∈ r :: rs := by
            rcases hbl with hcon | hcon
            · rcases List.mem_cons.mp hcon with h1 | h2
              · exfalso
                rw [← h1] at hl
                exact hl rfl
              · exact h2
            · exact absurd hcon (by simp)
          cases hph : parseHeaderLine l with
          | ok hres =>
            rw [hph] at hrun
            exact ih true (hs ++ [hres]) b hrun hlast (Or.inl hmem)
          | error e =>
            rw [hph] at hrun
            exact absurd hrun (by simp)

theorem Method.fromStr_not_mem (s : String)
    (hs : s ∉ (["GET", "POST", "PUT", "PATCH", "DELETE"] : List String)) :
    Method.fromStr (some s) = none := by
  simp only [List.mem_cons, List.not_mem_nil, or_false, not_or] at hs
  obtain ⟨h1, h2, h3, h4, h5⟩ := hs
  rw [Method.fromStr, if_neg h1, if_neg h2, if_neg h3, if_neg h4, if_neg h5]

theorem map_const_replicate {α β : Type} (l : List α) (c : β) :
    l.map (fun _ => c) = List.replicate l.length c := by
  induction l with
  | nil => rfl
  | cons x xs ih => simp [List.replicate_succ, ih]

/-- C2: response framing law — a zero-length body renders as exactly one
CRLF-terminated status line with no Content-Length header and no blank line;
a body of length L > 0 renders as the status line, a Content-Length: L line,
a blank line, and exactly the L bytes of the body. -/
theorem c2_response_framing (st : StatusCode) (b : String) :
    (utf8Len b = 0 →
      renderResponse st b = "HTTP/1.1 " ++ st.text ++ "\r\n" ∧
      countCRLF (renderResponse st b).data = 1 ∧
      ¬ ("Content-Length".data <:+: (renderResponse st b).data)) ∧
    (0 < utf8Len b →
      renderResponse st b =
        "HTTP/1.1 " ++ st.text ++ "\r\n" ++ "Content-Length: " ++
          Nat.repr (utf8Len b) ++ "\r\n\r\n" ++ b) := by
  constructor
  · intro h
    have hrw : renderResponse st b = "HTTP/1.1 " ++ st.text ++ "\r\n" := by
      rw [renderResponse, if_neg (by omega)]
    refine ⟨hrw, ?_, ?_⟩
    · rw [hrw]; cases st <;> decide
    · rw [hrw]; cases st <;> decide
  · intro h
    rw [renderResponse, if_pos h]

theorem c2_response_framing_witness :
    renderResponse StatusCode.Ok "" = "HTTP/1.1 200 OK\r\n" ∧
    renderResponse StatusCode.Ok "pong" =
      "HTTP/1.1 200 OK\r\nContent-Length: 4\r\n\r\npong" := by
  constructor
  · rw [((c2_response_framing StatusCode.Ok "").1 (by decide)).1]
    rfl
  · rw [(c2_response_framing StatusCode.Ok "pong").2 (by decide)]
    rfl

/-- C5: for every N >= 1, ThreadPool::new(N) spawns exactly N workers (ids
0..N-1, each with a live thread handle), and the Drop trace sends exactly N
terminate signals — one per worker — and then joins every worker. -/
theorem c5_pool_lifecycle (n : Nat) (h : 1 ≤ n) :
    ∃ p : ThreadPool, ThreadPool.new n = .ok p ∧
      p.workers.length = n ∧
      p.workers.map Worker.id = List.range n ∧
      (∀ w ∈ p.workers, w.thread = some ()) ∧
      p.dropTrace = List.replicate n ShutdownStep.sendTerminate ++
        (List.range n).map ShutdownStep.joinWorker := by
  refine ⟨⟨(List.range n).map (fun i => ⟨i, some ()⟩)⟩, ?_, ?_, ?_, ?_, ?_⟩
  · rw [ThreadPool.new, if_pos (by omega)]
  · simp
  · rw [List.map_map,
        show Worker.id ∘ (fun i => (⟨i, some ()⟩ : Worker)) = fun i => i from rfl]
    exact List.map_id' _
  · intro w hw
    simp only [List.mem_map] at hw
    obtain ⟨i, _, hi⟩ := hw
    rw [← hi]
  · rw [ThreadPool.dropTrace]
    congr 1
    · rw [map_const_replicate]
      simp
    · rw [List.map_map]
      have hcomp : (ShutdownStep.joinWorker ∘ Worker.id) ∘
          (fun i => (⟨i, some ()⟩ : Worker)) = fun i => ShutdownStep.joinWorker i := rfl
      rw [show (fun w => ShutdownStep.joinWorker w.id) ∘
            (fun i => (⟨i, some ()⟩ : Worker)) = fun i => ShutdownStep.joinWorker i from rfl]

theorem c5_pool_lifecycle_witness :
    ∃ p : ThreadPool, ThreadPool.new 3 = .ok p ∧
      p.workers.length = 3 ∧
      p.workers.map Worker.id = List.range 3 ∧
      (∀ w ∈ p.workers, w.thread = some ()) ∧
      p.dropTrace = List.replicate 3 ShutdownStep.sendTerminate ++
        (List.range 3).map ShutdownStep.joinWorker :=
  c5_pool_lifecycle 3 (by omega)

/-- C9: constructing the pool with zero workers fails at construction
(before any connection is accepted by the run loop), and construction
succeeds exactly for worker counts >= 1. -/
theorem c9_zero_workers_fatal (n : Nat) (conns : List Nat) :
    ThreadPool.new 0 = .error () ∧
    WebSrv.run 0 conns = .error () ∧
    ((∃ p, ThreadPool.new n = .ok p) ↔ 1 ≤ n) ∧
    (1 ≤ n → WebSrv.run n conns = .ok conns) := by
  refine ⟨rfl, rfl, ?_, ?_⟩
  · constructor
    · rintro ⟨p, hp⟩
      by_contra hn
      have h0 : n = 0 := by omega
      subst h0
      exact Except.noConfusion hp
    · intro hn
      exact ⟨_, by rw [ThreadPool.new, if_pos (by omega)]⟩
  · intro hn
    rw [WebSrv.run, ThreadPool.new, if_pos (by omega)]

theorem c9_zero_workers_fatal_witness :
    ThreadPool.new 0 = .error () ∧ (∃ p, ThreadPool.new 4 = .ok p) ∧
    WebSrv.run 4 [0, 1] = .ok [0, 1] :=
  ⟨(c9_zero_workers_fatal 4 [0, 1]).1,
   (c9_zero_workers_fatal 4 [0, 1]).2.2.1.mpr (by omega),
   (c9_zero_workers_fatal 4 [0, 1]).2.2.2 (by omega)⟩

/-- C8: rendering any member of the verb enumeration to its canonical text
and parsing it back yields the same member; any token outside the set parses
to none, and a request whose method token is such a token parses to no
Request (`Ok none`). -/
theorem c8_method_roundtrip (m : Method) (s : String) (buffer : String)
    (fl : List Char) (rest : List (List Char))
    (hs : s ∉ (["GET", "POST", "PUT", "PATCH", "DELETE"] : List String))
    (hlines : rustLines buffer.data = fl :: rest)
    (htok : (splitWs fl)[0]? = some s.data) :
    Method.fromStr (some (Method.render m)) = some m ∧
    Method.fromStr (some s) = none ∧
    Request.fromStr buffer = .ok none := by
  refine ⟨by cases m <;> rfl, Method.fromStr_not_mem s hs, ?_⟩
  simp only [Request.fromStr, hlines]
  rw [htok, show Option.map String.mk (some s.data) = some (String.mk s.data) from rfl,
      mk_data, Method.fromStr_not_mem s hs]

theorem c8_method_roundtrip_witness :
    Method.fromStr (some (Method.render Method.GET)) = some Method.GET ∧
    Method.fromStr (some "HEAD") = none ∧
    Request.fromStr "HEAD /x HTTP/1.1\r\n\r\nz" = .ok none := by
  exact c8_method_roundtrip Method.GET "HEAD" "HEAD /x HTTP/1.1\r\n\r\nz"
    ("HEAD /x HTTP/1.1").data [[], ['z']] (by decide) rfl rfl

/-- C6 counterexample: the claim says a header line with more than one
colon-space occurrence fails the whole parse; in the code such a line parses
fine — "Host: a: b" yields key "Host" and value "a", with the rest dropped,
and a Request is returned. -/
theorem c6_counterexample :
    headerPairs (Request.fromStr "GET /x HTTP/1.1\r\nHost: a: b\r\n\r\nz") =
      some [("Host", "a")] := by decide

/-- C6 as amended: each header line is split on colon-space with the first
piece as key and the second as value, extra pieces silently dropped; only a
header line with no colon-space at all aborts the parse (a panic, modelled as
`.error ()`), so no Request is ever returned for such a buffer. -/
theorem c6_header_split (line k v badl : List Char) (rest : List (List Char))
    (s : String) (fl : List Char) (ls : List (List Char))
    (hsplit : splitColonSpace line = k :: v :: rest)
    (hnosep : containsColonSpace badl = false)
    (hlines : rustLines s.data = fl :: ls)
    (hbad : badl ∈ ls.takeWhile (fun x => !x.isEmpty)) :
    parseHeaderLine line = .ok ⟨String.mk k, String.mk v⟩ ∧
    parseHeaderLine badl = .error () ∧
    (∀ r : Request, Request.fromStr s ≠ .ok (some r)) := by
  refine ⟨parseHeaderLine_sep line k v rest hsplit,
    parseHeaderLine_no_sep badl hnosep, ?_⟩
  intro r hr
  simp only [Request.fromStr, hlines] at hr
  rcases hm : Method.fromStr ((splitWs fl)[0]?.map String.mk) with _ | m
  · rw [hm] at hr; simp at hr
  · rw [hm] at hr
    rcases h1 : (splitWs fl)[1]? with _ | u
    · rw [h1] at hr; simp at hr
    · rcases h2 : (splitWs fl)[2]? with _ | ver
      · rw [h1, h2] at hr; simp at hr
      · rw [h1, h2, parseLinesLoop_badHeader ls [] [] ⟨badl, hbad, hnosep⟩] at hr
        simp at hr

theorem c6_header_split_witness :
    parseHeaderLine ("Host: a: b").data = .ok ⟨"Host", "a"⟩ ∧
    parseHeaderLine ("BadHeader").data = .error () := by
  have h := c6_header_split ("Host: a: b").data ("Host").data ("a").data
    ("BadHeader").data [("b").data] "GET /x HTTP/1.1\r\nBadHeader\r\n\r\n"
    ("GET /x HTTP/1.1").data [("BadHeader").data, []] rfl rfl rfl (by decide)
  exact ⟨h.1, h.2.1⟩

/-- C7 counterexample: the claim says the response's VERSION field is the
parsed request's http_ver; the code hardcodes HTTP/1.1 — a request carrying
HTTP/1.0 is answered with an HTTP/1.1 status line. -/
theorem c7_counterexample :
    handleRequest [⟨"/x", Method.GET, fun _ => (StatusCode.Ok, "")⟩]
        ⟨"HTTP/1.0", Method.GET, "/x", [], ""⟩ "nf" = "HTTP/1.1 200 OK\r\n" ∧
    ¬ ("HTTP/1.1 200 OK\r\n" = "HTTP/1.0" ++ " " ++ "200 OK" ++ "\r\n") := by
  exact ⟨rfl, by decide⟩

/-- C7 as amended: the status line of every dispatched response is
"HTTP/1.1 SP status-text CRLF" with the protocol hardcoded as HTTP/1.1,
regardless of the request's http_ver field; it equals the request's version
only when that version happens to be HTTP/1.1. -/
theorem c7_version_hardcoded (routes : List Route) (req : Request) (nf : String) :
    statusLineOf (handleRequest routes req nf) =
      "HTTP/1.1 " ++ (match findRoute routes req with
        | some route => ((route.func req).1).text
        | none => StatusCode.NotFound.text) := by
  rw [handleRequest]
  cases h : findRoute routes req with
  | some route => exact statusLineOf_render _ _
  | none =>
    rw [statusLineOf_notFound]
    rfl

theorem parse_ping :
    Request.fromStr (mkBuffer "GET /ping HTTP/1.1\r\n\r\n") = .ok (some pingReq) := by
  rw [show mkBuffer "GET /ping HTTP/1.1\r\n\r\n" =
        String.mk (("GET /ping HTTP/1.1").data ++
          ('\r' :: '\n' :: '\r' :: '\n' :: List.replicate 4074 NUL)) from rfl,
      fromStr_three_tok ("GET /ping HTTP/1.1").data ("GET").data ("/ping").data
        ("HTTP/1.1").data 4074 Method.GET (by omega) (by decide) rfl rfl]
  rfl

theorem parse_missing :
    Request.fromStr (mkBuffer "GET /missing HTTP/1.1\r\n\r\n") =
      .ok (some ⟨"HTTP/1.1", Method.GET, "/missing", [],
        String.mk (List.replicate 4071 NUL)⟩) := by
  rw [show mkBuffer "GET /missing HTTP/1.1\r\n\r\n" =
        String.mk (("GET /missing HTTP/1.1").data ++
          ('\r' :: '\n' :: '\r' :: '\n' :: List.replicate 4071 NUL)) from rfl,
      fromStr_three_tok ("GET /missing HTTP/1.1").data ("GET").data ("/missing").data
        ("HTTP/1.1").data 4071 Method.GET (by omega) (by decide) rfl rfl]

theorem handleConnection_parsed (received : String) (routes : List Route)
    (nf : String) (req : Request)
    (hparse : Request.fromStr (mkBuffer received) = .ok (some req)) :
    handleConnection received routes nf = .ok (some (handleRequest routes req nf)) := by
  rw [handleConnection, hparse]

/-- C1: for every route table and every parsed Request whose (uri, method)
pair occurs in the table, the connection handler invokes the handler of the
first matching route in table order (none before it matches), writes exactly
the rendering of that handler's result, and the response's status line
carries exactly the text of the StatusCode the handler returned. -/
theorem c1_dispatch_first_match (received : String) (routes : List Route)
    (req : Request) (nf : String)
    (hparse : Request.fromStr (mkBuffer received) = .ok (some req))
    (hex : ∃ r ∈ routes, routeMatches r req = true) :
    ∃ i, ∃ hi : i < routes.length,
      routeMatches routes[i] req = true ∧
      (∀ r ∈ routes.take i, routeMatches r req = false) ∧
      findRoute routes req = some routes[i] ∧
      handleConnection received routes nf =
        .ok (some (renderResponse (routes[i].func req).1 (routes[i].func req).2)) ∧
      statusLineOf (renderResponse (routes[i].func req).1 (routes[i].func req).2) =
        "HTTP/1.1 " ++ ((routes[i].func req).1).text := by
  obtain ⟨i, hi, h1, h2, h3⟩ := findRoute_first routes req hex
  refine ⟨i, hi, h1, h2, h3, ?_, statusLineOf_render _ _⟩
  rw [handleConnection_parsed received routes nf req hparse]
  unfold handleRequest
  rw [h3]

theorem c1_dispatch_first_match_witness :
    ∃ i, ∃ hi : i < pingRoutes.length,
      routeMatches pingRoutes[i] pingReq = true ∧
      (∀ r ∈ pingRoutes.take i, routeMatches r pingReq = false) ∧
      findRoute pingRoutes pingReq = some pingRoutes[i] ∧
      handleConnection "GET /ping HTTP/1.1\r\n\r\n" pingRoutes "nf" =
        .ok (some (renderResponse (pingRoutes[i].func pingReq).1
          (pingRoutes[i].func pingReq).2)) ∧
      statusLineOf (renderResponse (pingRoutes[i].func pingReq).1
          (pingRoutes[i].func pingReq).2) =
        "HTTP/1.1 " ++ ((pingRoutes[i].func pingReq).1).text := by
  refine c1_dispatch_first_match "GET /ping HTTP/1.1\r\n\r\n" pingRoutes pingReq "nf"
    parse_ping ⟨⟨"/ping", Method.GET, fun _ => (StatusCode.Ok, "pong")⟩, ?_, by decide⟩
  rw [pingRoutes]
  exact List.mem_singleton.mpr rfl

/-- C4: for every parsed Request matching no route, the handler writes the
404 Not Found response whose body is exactly the not-found collaborator's
content (templates/404.html, modelled as the parameter), framed with a
matching Content-Length. -/
theorem c4_not_found (received : String) (routes : List Route) (nf : String)
    (req : Request)
    (hparse : Request.fromStr (mkBuffer received) = .ok (some req))
    (hnone : ∀ r ∈ routes, routeMatches r req = false) :
    handleConnection received routes nf = .ok (some (notFoundResponse nf)) ∧
    notFoundResponse nf = "HTTP/1.1 404 Not Found\r\nContent-Length: " ++
      Nat.repr (utf8Len nf) ++ "\r\n\r\n" ++ nf ∧
    statusLineOf (notFoundResponse nf) = "HTTP/1.1 404 Not Found" := by
  refine ⟨?_, rfl, statusLineOf_notFound nf⟩
  rw [handleConnection_parsed received routes nf req hparse]
  unfold handleRequest
  rw [findRoute_none routes req hnone]

theorem c4_not_found_witness :
    handleConnection "GET /missing HTTP/1.1\r\n\r\n" [] "nope" =
      .ok (some (notFoundResponse "nope")) ∧
    notFoundResponse "nope" =
      "HTTP/1.1 404 Not Found\r\nContent-Length: 4\r\n\r\nnope" := by
  have h := c4_not_found "GET /missing HTTP/1.1\r\n\r\n" [] "nope"
    ⟨"HTTP/1.1", Method.GET, "/missing", [], String.mk (List.replicate 4071 NUL)⟩
    parse_missing (fun r hr => absurd hr (List.not_mem_nil r))
  refine ⟨h.1, ?_⟩
  rw [h.2.1]
  rfl

/-- C3 counterexample: on the empty buffer the parser does not return None —
`lines.next().unwrap()` panics (modelled as `.error ()`), so "the Parser
yields no Request" in the sense of returning None is false for this
malformed class. -/
theorem c3_counterexample :
    Request.fromStr "" = .error () ∧ ¬ Request.fromStr "" = .ok none := by
  refine ⟨rfl, fun h => ?_⟩
  rw [show Request.fromStr "" = Except.error () from rfl] at h
  exact Except.noConfusion h

theorem fromStr_malformed (t : String) (ht : Malformed t) :
    ∀ r : Request, Request.fromStr t ≠ .ok (some r) := by
  intro r hr
  rcases ht with h0 | ⟨fl, rest, hlines, hlen⟩ | ⟨fl, rest, hlines, l, hl, hlc⟩
  · subst h0
    rw [show Request.fromStr "" = Except.error () from rfl] at hr
    exact Except.noConfusion hr
  · simp only [Request.fromStr, hlines] at hr
    rcases hm : Method.fromStr ((splitWs fl)[0]?.map String.mk) with _ | m
    · rw [hm] at hr; simp at hr
    · rw [hm] at hr
      have h2 : (splitWs fl)[2]? = none := List.getElem?_eq_none (by omega)
      rcases h1 : (splitWs fl)[1]? with _ | u
      · rw [h1, h2] at hr; simp at hr
      · rw [h1, h2] at hr; simp at hr
  · simp only [Request.fromStr, hlines] at hr
    rcases hm : Method.fromStr ((splitWs fl)[0]?.map String.mk) with _ | m
    · rw [hm] at hr; simp at hr
    · rw [hm] at hr
      rcases h1 : (splitWs fl)[1]? with _ | u
      · rw [h1] at hr; simp at hr
      · rcases h2 : (splitWs fl)[2]? with _ | ver
        · rw [h1, h2] at hr; simp at hr
        · rw [h1, h2, parseLinesLoop_badHeader rest [] [] ⟨l, hl, hlc⟩] at hr
          simp at hr

/-- C3 as amended: for every malformed buffer (empty; request line with
fewer than three whitespace tokens; header line before the first empty line
lacking colon-space) the Parser never produces a Request — it returns None
exactly when the method token is missing or unrecognized and panics in the
other malformed cases — and the connection handler writes no bytes either
way. -/
theorem c3_malformed_no_request (s received : String) (routes : List Route)
    (nf : String) (hs : Malformed s) (hrec : Malformed (mkBuffer received)) :
    (∀ r : Request, Request.fromStr s ≠ .ok (some r)) ∧
    (∀ out : String, handleConnection received routes nf ≠ .ok (some out)) := by
  refine ⟨fromStr_malformed s hs, ?_⟩
  intro out hout
  rw [handleConnection] at hout
  cases hps : Request.fromStr (mkBuffer received) with
  | error e => rw [hps] at hout; simp at hout
  | ok o =>
    cases o with
    | none => rw [hps] at hout; simp at hout
    | some r => exact absurd hps (fromStr_malformed (mkBuffer received) hrec r)

theorem mkBuffer_empty_malformed : Malformed (mkBuffer "") := by
  refine Or.inr (Or.inl ⟨List.replicate 4096 NUL, [], ?_, ?_⟩)
  · rw [show (mkBuffer "").data = List.replicate 4096 NUL from rfl,
        rustLines, splitNl_no_nl _ (fun c hc => by
          rw [List.eq_of_mem_replicate hc]; exact NUL_not_nl),
        show rustLinesAux [List.replicate 4096 NUL] =
          (if List.replicate 4096 NUL = [] then []
           else [List.replicate 4096 NUL]) from rfl,
        if_neg (replicate_NUL_ne_nil 4096 (by omega))]
  · rw [splitWs_no_ws _ (replicate_NUL_ne_nil 4096 (by omega))
        (fun c hc => by rw [List.eq_of_mem_replicate hc]; exact NUL_not_ws)]
    rw [List.length_singleton]
    omega

theorem c3_malformed_no_request_witness :
    Request.fromStr "" ≠ .ok (some ⟨"", Method.GET, "", [], ""⟩) ∧
    handleConnection "" [] "nf" ≠ .ok (some "x") := by
  have h := c3_malformed_no_request "" "" [] "nf" (Or.inl rfl) mkBuffer_empty_malformed
  exact ⟨h.1 _, h.2 _⟩

/-- C10: the connection handler always hands the parser the full
4096-byte zero-padded buffer (a single read; the buffer's byte length is
4096 whatever was received), so every successfully parsed request shorter
than 4096 bytes whose line sequence contains a blank-line separator gets a
body ending in the run of NUL characters decoded from the unread tail,
appended after the bytes the peer sent. -/
theorem c10_body_nul_tail (received : String) (routes : List Route) (nf : String)
    (req : Request)
    (hlen : utf8Len received < 4096)
    (hparse : Request.fromStr (mkBuffer received) = .ok (some req))
    (hblank : ∃ fl rest, rustLines (mkBuffer received).data = fl :: rest ∧ [] ∈ rest) :
    utf8Len (mkBuffer received) = 4096 ∧
    handleConnection received routes nf = .ok (some (handleRequest routes req nf)) ∧
    0 < 4096 - utf8Len received ∧
    ∃ t, req.body.data = t ++ List.replicate (4096 - utf8Len received) NUL := by
  obtain ⟨fl, rest, hlines, hmem⟩ := hblank
  have hkpos : 0 < 4096 - utf8Len received := by omega
  refine ⟨utf8Len_mkBuffer received (le_of_lt hlen),
    handleConnection_parsed received routes nf req hparse, hkpos, ?_⟩
  have hdata : (mkBuffer received).data =
      received.data ++ List.replicate (4096 - utf8Len received) NUL := by
    rw [mkBuffer, data_append, data_mk]
  have hnl : ∀ c ∈ List.replicate (4096 - utf8Len received) NUL, ¬ c = '\n' :=
    fun c hc => by rw [List.eq_of_mem_replicate hc]; exact NUL_not_nl
  obtain ⟨x, hxlast⟩ := joinSplit_getLast_single (splitNl received.data)
    (List.replicate (4096 - utf8Len received) NUL) (splitNl_ne_nil _)
  have htne : ¬ x ++ List.replicate (4096 - utf8Len received) NUL = [] := by
    intro hnil
    exact replicate_NUL_ne_nil _ hkpos (List.append_eq_nil.mp hnil).2
  have hlast2 : (rustLines (mkBuffer received).data).getLast? =
      some (x ++ List.replicate (4096 - utf8Len received) NUL) := by
    rw [rustLines, hdata, splitNl_append, splitNl_no_nl _ hnl]
    exact rustLinesAux_getLast _ _ hxlast htne
  rw [hlines] at hlast2
  have hrestne : rest ≠ [] := fun h => by subst h; simp at hmem
  have hlast3 : rest.getLast? =
      some (x ++ List.replicate (4096 - utf8Len received) NUL) := by
    match rest, hrestne with
    | a :: as, _ =>
      rw [List.getLast?_cons_cons] at hlast2
      exact hlast2
  simp only [Request.fromStr, hlines] at hparse
  rcases hm : Method.fromStr ((splitWs fl)[0]?.map String.mk) with _ | m
  · rw [hm] at hparse; simp at hparse
  · rw [hm] at hparse
    rcases h1 : (splitWs fl)[1]? with _ | u
    · rw [h1] at hparse; simp at hparse
    · rcases h2 : (splitWs fl)[2]? with _ | ver
      · rw [h1, h2] at hparse; simp at hparse
      · rw [h1, h2] at hparse
        cases hloop : parseLinesLoop rest true [] [] with
        | error e => rw [hloop] at hparse; simp at hparse
        | ok pr =>
          rw [hloop] at hparse
          obtain ⟨hs2, b2⟩ := pr
          simp only [Except.ok.injEq, Option.some.injEq] at hparse
          obtain ⟨u2, hu2⟩ := parseLinesLoop_body_suffix rest true [] hs2 [] b2
            (x ++ List.replicate (4096 - utf8Len received) NUL) hloop hlast3 htne
            (Or.inl hmem)
          refine ⟨u2 ++ x, ?_⟩
          rw [← hparse]
          show (String.mk b2).data =
            (u2 ++ x) ++ List.replicate (4096 - utf8Len received) NUL
          rw [data_mk, hu2, List.append_assoc]

theorem c10_body_nul_tail_witness :
    utf8Len (mkBuffer "GET /ping HTTP/1.1\r\n\r\n") = 4096 ∧
    handleConnection "GET /ping HTTP/1.1\r\n\r\n" pingRoutes "nf" =
      .ok (some (handleRequest pingRoutes pingReq "nf")) ∧
    0 < 4096 - utf8Len "GET /ping HTTP/1.1\r\n\r\n" ∧
    ∃ t, pingReq.body.data =
      t ++ List.replicate (4096 - utf8Len "GET /ping HTTP/1.1\r\n\r\n") NUL := by
  refine c10_body_nul_tail "GET /ping HTTP/1.1\r\n\r\n" pingRoutes "nf" pingReq
    (by decide) parse_ping ?_
  refine ⟨("GET /ping HTTP/1.1").data, [[], List.replicate 4074 NUL], ?_,
    List.mem_cons_self _ _⟩
  rw [show (mkBuffer "GET /ping HTTP/1.1\r\n\r\n").data =
        ("GET /ping HTTP/1.1").data ++
          ('\r' :: '\n' :: '\r' :: '\n' :: List.replicate 4074 NUL) from rfl]
  exact rustLines_req_nuls _ 4074 (by omega) (by decide)

end Websrv
